import Mathlib

/-!
Verification of the manifest-assembly layer of `src/db/file.rs`:
`add_path_into_database` and `file_list_to_json`.

The module stores all files of a directory through a storage backend and
returns a JSON manifest `[[mimetype, filename], ...]` together with the set
of compression algorithms used.  Only `file.rs` is in the repository
fragment; the storage backend (`Storage::store_all`), the error type and the
JSON library are collaborators, modelled from the specification where noted.
-/

namespace DocsRs

/-- Model of a platform string (`std::ffi::OsString`): either text that is
valid unicode, or raw bytes that are not representable as text.
`OsString::into_string` succeeds exactly on the first form. -/
inductive OsString where
  | valid (s : String)
  | invalid (bytes : List UInt8)
deriving DecidableEq

/-- Model of `OsString::into_string : OsString -> Result<String, OsString>`:
returns the text when the string is valid unicode, otherwise gives the
original `OsString` back as the error. -/
def OsString.into_string : OsString → Except OsString String
  | .valid s => .ok s
  | .invalid bs => .error (.invalid bs)

/-- Whether the platform string is representable as text. -/
def OsString.isValid : OsString → Bool
  | .valid _ => true
  | .invalid _ => false

/-- The text of a valid platform string (dummy value on invalid ones; only
used in theorem statements under an `isValid` hypothesis). -/
def OsString.textOf : OsString → String
  | .valid s => s
  | .invalid _ => ""

/-- Model of `std::path::PathBuf`; `PathBuf::into_os_string` is the identity
on this model, so we identify the two types. -/
abbrev PathBuf := OsString

/-- Model of the fragment of `serde_json::Value` the module constructs:
JSON strings (`Value::String`) and JSON arrays (`Value::Array`). -/
inductive Value where
  | str (s : String)
  | arr (vs : List Value)

/-- Model of the crate error type (`crate::error::Result`'s error); its
only role in this layer is to be propagated, so an opaque message suffices. -/
abbrev Error := String

/-- The result of running a piece of Rust code that may panic: either a
panic (process abort) or a normally returned value.  `Result`-returning
functions produce an `Outcome (Except Error α)`. -/
inductive Outcome (α : Type) where
  | panicked
  | returned (a : α)
deriving DecidableEq

/-- Model of `Result::unwrap` on the `OsString -> String` conversion of
line 43: the contained value on `Ok`, a panic on `Err`. -/
def unwrapText : Except OsString String → Outcome String
  | .ok s => .returned s
  | .error _ => .panicked

/-- Modelled from the spec: the compression-algorithm set is "a set of
algorithm identifiers actually used when storing the batch"; its elements
are opaque to this layer, which only passes the set through. -/
abbrev CompressionAlgorithms := List String

/-- Modelled from the spec: the upload-orchestration contract (§4.2) that
`Storage` provides and `file.rs` consumes.  `store_all` takes a prefix and
a root path and either fails or returns the sequence of
(stored path, mimetype) pairs in the order produced by the bulk uploader,
together with the compression algorithms used.  (`file.rs` does not contain
the `storage` module; only this result shape is relevant here.) -/
structure Storage where
  store_all : String → PathBuf → Except Error (List (PathBuf × String) × CompressionAlgorithms)

/-- The closure of lines 40-45: one `(path, name)` pair becomes the JSON
array `[Value::String(name), Value::String(path.into_os_string().into_string().unwrap())]`;
the `unwrap` panics when the path is not valid unicode. -/
def entry_to_json : PathBuf × String → Outcome Value
  | (path, name) =>
    match unwrapText path.into_string with
    | .panicked => .panicked
    | .returned s => .returned (.arr [.str name, .str s])

/-- Rust iterator `map(...).collect::<Vec<_>>()` over a closure that may
panic: elements are processed front to back and the first panic aborts. -/
def mapPanic (f : α → Outcome β) : List α → Outcome (List β)
  | [] => .returned []
  | a :: as =>
    match f a with
    | .panicked => .panicked
    | .returned b =>
      match mapPanic f as with
      | .panicked => .panicked
      | .returned bs => .returned (b :: bs)

/-- Embedding of `file_list_to_json` (lines 37-48): maps every
`(path, name)` pair to `[name, path-as-text]` and wraps the results in one
JSON array, returning `Ok` of it.  The declared error channel of the Rust
`Result` return type is never used; failure happens only via the panic of
the `unwrap`. -/
def file_list_to_json (file_list : List (PathBuf × String)) : Outcome (Except Error Value) :=
  match mapPanic entry_to_json file_list with
  | .panicked => .panicked
  | .returned vs => .returned (.ok (.arr vs))

/-- Embedding of `add_path_into_database` (lines 25-35): runs
`storage.store_all(prefix, path)`, propagates its error with `?`, and on
success pairs `file_list_to_json` of the file list (the source's
`into_iter().collect()` re-collects the sequence, preserving its order)
with the algorithm set, again propagating errors with `?`. -/
def add_path_into_database (storage : Storage) (pre : String) (path : PathBuf) :
    Outcome (Except Error (Value × CompressionAlgorithms)) :=
  match storage.store_all pre path with
  | .error e => .returned (.error e)
  | .ok (file_list, algorithms) =>
    match file_list_to_json file_list with
    | .panicked => .panicked
    | .returned (.error e) => .returned (.error e)
    | .returned (.ok v) => .returned (.ok (v, algorithms))

/-- World-passing embedding of `file_list_to_json` over an arbitrary
external-state type `σ`: the body of the function (lines 37-48) contains no
I/O or other state-touching primitive — it only constructs vectors and JSON
values from its argument — so its effectful embedding threads the world
through unchanged and computes the result from the argument alone. -/
def file_list_to_json_run (σ : Type) (w : σ) (file_list : List (PathBuf × String)) :
    Outcome (Except Error Value) × σ :=
  (file_list_to_json file_list, w)

/-- The manifest entry `[mimetype, key]` a valid `(path, name)` pair maps to. -/
def entryVal (e : PathBuf × String) : Value :=
  .arr [.str e.2, .str e.1.textOf]

/-- A backend whose `store_all` succeeds but reports a stored file whose
path is not representable as text, together with a non-empty algorithm
set. -/
def cexStorage : Storage :=
  ⟨fun _ _ => .ok ([(OsString.invalid [255], "text/html")], ["Zstd"])⟩

/-! ### JSON text serialization and the consumer-side parse

The JSON library (`serde_json`) is a collaborator outside `file.rs`, so its
textual form is modelled from the spec: the manifest is a "serializable
array-of-pairs structure" and "existing consumers parse it as an array of
2-element arrays of strings".  `renderValue` is the compact serialization
of a `Value` (strings as escaped literals, arrays bracketed and
comma-separated, exactly the form the serializer emits — no interleaved
whitespace), and `parseManifest` is the consumer-side parse back into the
list of 2-element string groups. -/

/-- Hex digit character (lowercase) for `\u00xx` escapes. -/
def hexDigit (n : Nat) : Char :=
  if n < 10 then Char.ofNat (48 + n) else Char.ofNat (87 + n)

/-- Modelled from the spec: JSON escaping of one character of a string
literal: `"` and `\` get backslash escapes, the five control characters
with short forms use them, any other control character below 0x20 becomes
`\u00xx`, and every other character stands for itself. -/
def escapeChar (c : Char) : List Char :=
  if c = '"' then ['\\', '"']
  else if c = '\\' then ['\\', '\\']
  else if c.toNat = 8 then ['\\', 'b']
  else if c.toNat = 9 then ['\\', 't']
  else if c.toNat = 10 then ['\\', 'n']
  else if c.toNat = 12 then ['\\', 'f']
  else if c.toNat = 13 then ['\\', 'r']
  else if c.toNat < 32 then
    ['\\', 'u', '0', '0', hexDigit (c.toNat / 16), hexDigit (c.toNat % 16)]
  else [c]

/-- Serialization of a JSON string literal: quote, escaped characters,
quote. -/
def renderString (s : String) : List Char :=
  '"' :: (s.data.flatMap escapeChar ++ ['"'])

mutual

/-- Compact JSON serialization of a `Value`. -/
def renderValue : Value → List Char
  | .str s => renderString s
  | .arr vs => '[' :: (renderValues vs ++ [']'])

/-- Comma-separated serialization of the elements of a JSON array. -/
def renderValues : List Value → List Char
  | [] => []
  | v :: vs => renderValue v ++ (if vs.isEmpty then [] else ',' :: renderValues vs)

end

/-- Numeric value of a hex digit character, either case accepted. -/
def hexVal (c : Char) : Option Nat :=
  if 48 ≤ c.toNat ∧ c.toNat ≤ 57 then some (c.toNat - 48)
  else if 97 ≤ c.toNat ∧ c.toNat ≤ 102 then some (c.toNat - 87)
  else if 65 ≤ c.toNat ∧ c.toNat ≤ 70 then some (c.toNat - 55)
  else none

/-- Modelled from the spec: parse of a JSON string literal body (after the
opening quote): ordinary characters stand for themselves, backslash escapes
are decoded, an unescaped control character is rejected, and the closing
quote ends the literal, returning the decoded characters and the remaining
input.  The fuel argument bounds the number of decoded characters; each
recursive step consumes at least one input character, so the input length
is always sufficient fuel. -/
def parseStringBody : Nat → List Char → Option (List Char × List Char)
  | 0, _ => none
  | fuel + 1, cs =>
    match cs with
    | [] => none
    | c :: rest =>
      if c = '"' then some ([], rest)
      else if c = '\\' then
        match rest with
        | [] => none
        | e :: rest2 =>
          if e = '"' then (parseStringBody fuel rest2).map (fun p => ('"' :: p.1, p.2))
          else if e = '\\' then (parseStringBody fuel rest2).map (fun p => ('\\' :: p.1, p.2))
          else if e = '/' then (parseStringBody fuel rest2).map (fun p => ('/' :: p.1, p.2))
          else if e = 'b' then (parseStringBody fuel rest2).map (fun p => (Char.ofNat 8 :: p.1, p.2))
          else if e = 't' then (parseStringBody fuel rest2).map (fun p => (Char.ofNat 9 :: p.1, p.2))
          else if e = 'n' then (parseStringBody fuel rest2).map (fun p => (Char.ofNat 10 :: p.1, p.2))
          else if e = 'f' then (parseStringBody fuel rest2).map (fun p => (Char.ofNat 12 :: p.1, p.2))
          else if e = 'r' then (parseStringBody fuel rest2).map (fun p => (Char.ofNat 13 :: p.1, p.2))
          else if e = 'u' then
            match rest2 with
            | h1 :: h2 :: h3 :: h4 :: rest3 =>
              match hexVal h1, hexVal h2, hexVal h3, hexVal h4 with
              | some a, some b, some c2, some d =>
                (parseStringBody fuel rest3).map
                  (fun p => (Char.ofNat (((a * 16 + b) * 16 + c2) * 16 + d) :: p.1, p.2))
              | _, _, _, _ => none
            | _ => none
          else none
      else if c.toNat < 32 then none
      else (parseStringBody fuel rest).map (fun p => (c :: p.1, p.2))

/-- Modelled from the spec: parse of one manifest entry, a 2-element JSON
array of strings `["mimetype","key"]`, returning the pair and the
remaining input. -/
def parseEntry (cs : List Char) : Option ((String × String) × List Char) :=
  match cs with
  | '[' :: '"' :: r1 =>
    match parseStringBody (r1.length + 1) r1 with
    | some (s1, r2) =>
      match r2 with
      | ',' :: '"' :: r3 =>
        match parseStringBody (r3.length + 1) r3 with
        | some (s2, r4) =>
          match r4 with
          | ']' :: r5 => some ((⟨s1⟩, ⟨s2⟩), r5)
          | _ => none
        | none => none
      | _ => none
    | none => none
  | _ => none

/-- Parse of a non-empty comma-separated sequence of manifest entries up to
the closing bracket of the outer array.  The fuel argument bounds the
number of entries; each recursive step consumes one whole entry. -/
def parseEntries : Nat → List Char → Option (List (String × String) × List Char)
  | 0, _ => none
  | fuel + 1, cs =>
    match parseEntry cs with
    | some (e, r) =>
      match r with
      | ',' :: r2 =>
        match parseEntries fuel r2 with
        | some (es, r3) => some (e :: es, r3)
        | none => none
      | ']' :: r2 => some ([e], r2)
      | _ => none
    | none => none

/-- Modelled from the spec: the consumer-side parse of a serialized
manifest — an array of 2-element arrays of strings — returning the decoded
(mimetype, key) pairs and the remaining input.  The input length bounds the
number of entries, so it serves as fuel for the entry loop. -/
def parseManifest (cs : List Char) : Option (List (String × String) × List Char) :=
  match cs with
  | '[' :: ']' :: r => some ([], r)
  | '[' :: rest => parseEntries rest.length rest
  | _ => none

/-! ### Basic lemmas about the element map -/

theorem entry_to_json_valid (e : PathBuf × String) (h : e.1.isValid = true) :
    entry_to_json e = .returned (entryVal e) := by
  obtain ⟨p, n⟩ := e
  cases p with
  | valid s => rfl
  | invalid bs => simp [OsString.isValid] at h

theorem entry_to_json_invalid (e : PathBuf × String) (h : e.1.isValid = false) :
    entry_to_json e = .panicked := by
  obtain ⟨p, n⟩ := e
  cases p with
  | valid s => simp [OsString.isValid] at h
  | invalid bs => rfl

theorem mapPanic_valid (fl : List (PathBuf × String)) (h : ∀ x ∈ fl, x.1.isValid = true) :
    mapPanic entry_to_json fl = .returned (fl.map entryVal) := by
  induction fl with
  | nil => rfl
  | cons a as ih =>
    have ha := entry_to_json_valid a (h a (List.mem_cons_self a as))
    have hrec := ih (fun x hx => h x (List.mem_cons_of_mem a hx))
    simp [mapPanic, ha, hrec]

theorem mapPanic_invalid (fl : List (PathBuf × String)) (h : ∃ x ∈ fl, x.1.isValid = false) :
    mapPanic entry_to_json fl = .panicked := by
  induction fl with
  | nil => simp at h
  | cons a as ih =>
    obtain ⟨x, hx, hv⟩ := h
    rcases List.mem_cons.mp hx with hxa | hxas
    · subst hxa
      simp [mapPanic, entry_to_json_invalid x hv]
    · cases hfa : entry_to_json a with
      | panicked => simp [mapPanic, hfa]
      | returned b => simp [mapPanic, hfa, ih ⟨x, hxas, hv⟩]

/-- Under the all-valid hypothesis, `file_list_to_json` returns `Ok` of
exactly the ordered entry list. -/
theorem file_list_to_json_valid (fl : List (PathBuf × String))
    (h : ∀ x ∈ fl, x.1.isValid = true) :
    file_list_to_json fl = .returned (.ok (.arr (fl.map entryVal))) := by
  simp [file_list_to_json, mapPanic_valid fl h]

/-! ### Round-trip lemmas for the serialized manifest -/

theorem hexVal_hexDigit : ∀ n < 16, hexVal (hexDigit n) = some n := by decide

theorem char_ofNat_eq {c : Char} {n : Nat} (h : c.toNat = n) : Char.ofNat n = c := by
  rw [← h, Char.ofNat_toNat]

/-- Escaping never shortens a string. -/
theorem length_le_flatMap_escapeChar (l : List Char) :
    l.length ≤ (l.flatMap escapeChar).length := by
  induction l with
  | nil => simp
  | cons c l ih =>
    have h1 : 1 ≤ (escapeChar c).length := by
      unfold escapeChar
      split_ifs <;> simp
    simp only [List.flatMap_cons, List.length_append, List.length_cons]
    omega

theorem psb_quote (fuel : Nat) (rest : List Char) :
    parseStringBody (fuel + 1) ('"' :: rest) = some ([], rest) := rfl

theorem psb_escape_quote (fuel : Nat) (rest : List Char) :
    parseStringBody (fuel + 1) ('\\' :: '"' :: rest) =
      (parseStringBody fuel rest).map (fun p => ('"' :: p.1, p.2)) := rfl

theorem psb_escape_backslash (fuel : Nat) (rest : List Char) :
    parseStringBody (fuel + 1) ('\\' :: '\\' :: rest) =
      (parseStringBody fuel rest).map (fun p => ('\\' :: p.1, p.2)) := rfl

theorem psb_escape_b (fuel : Nat) (rest : List Char) :
    parseStringBody (fuel + 1) ('\\' :: 'b' :: rest) =
      (parseStringBody fuel rest).map (fun p => (Char.ofNat 8 :: p.1, p.2)) := rfl

theorem psb_escape_t (fuel : Nat) (rest : List Char) :
    parseStringBody (fuel + 1) ('\\' :: 't' :: rest) =
      (parseStringBody fuel rest).map (fun p => (Char.ofNat 9 :: p.1, p.2)) := rfl

theorem psb_escape_n (fuel : Nat) (rest : List Char) :
    parseStringBody (fuel + 1) ('\\' :: 'n' :: rest) =
      (parseStringBody fuel rest).map (fun p => (Char.ofNat 10 :: p.1, p.2)) := rfl

theorem psb_escape_f (fuel : Nat) (rest : List Char) :
    parseStringBody (fuel + 1) ('\\' :: 'f' :: rest) =
      (parseStringBody fuel rest).map (fun p => (Char.ofNat 12 :: p.1, p.2)) := rfl

theorem psb_escape_r (fuel : Nat) (rest : List Char) :
    parseStringBody (fuel + 1) ('\\' :: 'r' :: rest) =
      (parseStringBody fuel rest).map (fun p => (Char.ofNat 13 :: p.1, p.2)) := rfl

theorem psb_unicode (fuel : Nat) (h1 h2 h3 h4 : Char) (a b c2 d : Nat) (rest : List Char)
    (ha : hexVal h1 = some a) (hb : hexVal h2 = some b)
    (hc : hexVal h3 = some c2) (hd : hexVal h4 = some d) :
    parseStringBody (fuel + 1) ('\\' :: 'u' :: h1 :: h2 :: h3 :: h4 :: rest) =
      (parseStringBody fuel rest).map
        (fun p => (Char.ofNat (((a * 16 + b) * 16 + c2) * 16 + d) :: p.1, p.2)) := by
  simp [parseStringBody, ha, hb, hc, hd]

theorem psb_plain (fuel : Nat) (c : Char) (rest : List Char)
    (hq : ¬ c = '"') (hs : ¬ c = '\\') (hc : ¬ c.toNat < 32) :
    parseStringBody (fuel + 1) (c :: rest) =
      (parseStringBody fuel rest).map (fun p => (c :: p.1, p.2)) := by
  simp [parseStringBody, hq, hs, hc]

/-- Parsing an escaped string body recovers the original characters and
leaves the input after the closing quote untouched. -/
theorem parseStringBody_render (l : List Char) :
    ∀ (rest : List Char) (fuel : Nat), l.length < fuel →
      parseStringBody fuel (l.flatMap escapeChar ++ '"' :: rest) = some (l, rest) := by
  induction l with
  | nil =>
    intro rest fuel hf
    cases fuel with
    | zero => omega
    | succ f => simpa using psb_quote f rest
  | cons c l ih =>
    intro rest fuel hf
    cases fuel with
    | zero => omega
    | succ f =>
      have ihf := ih rest f (by simp only [List.length_cons] at hf; omega)
      rw [List.flatMap_cons, List.append_assoc]
      by_cases h1 : c = '"'
      · subst h1
        rw [show escapeChar '"' = ['\\', '"'] from rfl]
        simp only [List.cons_append, List.nil_append]
        rw [psb_escape_quote, ihf]
        rfl
      · by_cases h2 : c = '\\'
        · subst h2
          rw [show escapeChar '\\' = ['\\', '\\'] from rfl]
          simp only [List.cons_append, List.nil_append]
          rw [psb_escape_backslash, ihf]
          rfl
        · by_cases h3 : c.toNat = 8
          · rw [show escapeChar c = ['\\', 'b'] by simp [escapeChar, h1, h2, h3]]
            simp only [List.cons_append, List.nil_append]
            rw [psb_escape_b, ihf]
            simp
            exact char_ofNat_eq h3
          · by_cases h4 : c.toNat = 9
            · rw [show escapeChar c = ['\\', 't'] by simp [escapeChar, h1, h2, h3, h4]]
              simp only [List.cons_append, List.nil_append]
              rw [psb_escape_t, ihf]
              simp
              exact char_ofNat_eq h4
            · by_cases h5 : c.toNat = 10
              · rw [show escapeChar c = ['\\', 'n'] by simp [escapeChar, h1, h2, h3, h4, h5]]
                simp only [List.cons_append, List.nil_append]
                rw [psb_escape_n, ihf]
                simp
                exact char_ofNat_eq h5
              · by_cases h6 : c.toNat = 12
                · rw [show escapeChar c = ['\\', 'f'] by
                    simp [escapeChar, h1, h2, h3, h4, h5, h6]]
                  simp only [List.cons_append, List.nil_append]
                  rw [psb_escape_f, ihf]
                  simp
                  exact char_ofNat_eq h6
                · by_cases h7 : c.toNat = 13
                  · rw [show escapeChar c = ['\\', 'r'] by
                      simp [escapeChar, h1, h2, h3, h4, h5, h6, h7]]
                    simp only [List.cons_append, List.nil_append]
                    rw [psb_escape_r, ihf]
                    simp
                    exact char_ofNat_eq h7
                  · by_cases h8 : c.toNat < 32
                    · have hhi : c.toNat / 16 < 16 := by omega
                      have hlo : c.toNat % 16 < 16 := by omega
                      have hchar :
                          Char.ofNat (c.toNat / 16 * 16 + c.toNat % 16) = c :=
                        char_ofNat_eq (by omega)
                      rw [show escapeChar c =
                          ['\\', 'u', '0', '0', hexDigit (c.toNat / 16),
                            hexDigit (c.toNat % 16)] by
                        simp [escapeChar, h1, h2, h3, h4, h5, h6, h7, h8]]
                      simp only [List.cons_append, List.nil_append]
                      rw [psb_unicode f '0' '0' (hexDigit (c.toNat / 16))
                        (hexDigit (c.toNat % 16)) 0 0 (c.toNat / 16) (c.toNat % 16) _
                        (by decide) (by decide)
                        (hexVal_hexDigit _ hhi) (hexVal_hexDigit _ hlo), ihf]
                      simp
                      exact hchar
                    · rw [show escapeChar c = [c] by
                        simp [escapeChar, h1, h2, h3, h4, h5, h6, h7, h8]]
                      simp only [List.singleton_append]
                      rw [psb_plain f c _ h1 h2 h8, ihf]
                      rfl

/-- Parsing one rendered 2-element string array recovers the pair. -/
theorem parseEntry_render (a b : String) (rest : List Char) :
    parseEntry (renderValue (.arr [.str a, .str b]) ++ rest) = some ((a, b), rest) := by
  have hsh : renderValue (.arr [.str a, .str b]) ++ rest =
      '[' :: '"' :: (a.data.flatMap escapeChar ++ '"' ::
        (',' :: '"' :: (b.data.flatMap escapeChar ++ '"' :: (']' :: rest)))) := by
    simp [renderValue, renderValues, renderString]
  rw [hsh]
  have hb1 : a.data.length <
      (a.data.flatMap escapeChar ++ '"' ::
        (',' :: '"' :: (b.data.flatMap escapeChar ++ '"' :: (']' :: rest)))).length + 1 := by
    have := length_le_flatMap_escapeChar a.data
    simp only [List.length_append, List.length_cons]
    omega
  have hb2 : b.data.length <
      (b.data.flatMap escapeChar ++ '"' :: (']' :: rest)).length + 1 := by
    have := length_le_flatMap_escapeChar b.data
    simp only [List.length_append, List.length_cons]
    omega
  simp only [parseEntry]
  rw [parseStringBody_render a.data _ _ hb1]
  simp only []
  rw [parseStringBody_render b.data _ _ hb2]
  rfl

/-- The entry parse recovers the (mimetype, key) pair of a rendered
manifest entry. -/
theorem parseEntry_render_entry (e : PathBuf × String) (rest : List Char) :
    parseEntry (renderValue (entryVal e) ++ rest) = some ((e.2, e.1.textOf), rest) :=
  parseEntry_render e.2 e.1.textOf rest

theorem renderValues_one (v : Value) : renderValues [v] = renderValue v := by
  simp [renderValues]

theorem renderValues_cons_cons (v w : Value) (ws : List Value) :
    renderValues (v :: w :: ws) = renderValue v ++ ',' :: renderValues (w :: ws) := by
  simp [renderValues]

/-- Parsing the rendered comma-separated entries of a non-empty manifest
recovers the (mimetype, key) pairs, provided the fuel exceeds the number of
remaining entries. -/
theorem parseEntries_render (fl : List (PathBuf × String)) :
    ∀ (e : PathBuf × String) (rest : List Char) (fuel : Nat), fl.length < fuel →
      parseEntries fuel (renderValues ((e :: fl).map entryVal) ++ ']' :: rest) =
        some ((e :: fl).map (fun x => (x.2, x.1.textOf)), rest) := by
  induction fl with
  | nil =>
    intro e rest fuel hf
    cases fuel with
    | zero => omega
    | succ f =>
      rw [List.map_cons, List.map_nil, renderValues_one]
      simp only [parseEntries]
      rw [parseEntry_render_entry]
      simp
  | cons e' fl' ih =>
    intro e rest fuel hf
    cases fuel with
    | zero => omega
    | succ f =>
      have ih' := ih e' rest f (by simp only [List.length_cons] at hf; omega)
      rw [List.map_cons, List.map_cons, renderValues_cons_cons, List.append_assoc,
        List.cons_append]
      simp only [parseEntries]
      rw [parseEntry_render_entry]
      rw [List.map_cons] at ih'
      simp [ih']

/-- A rendered `Value` is never the empty character sequence. -/
theorem renderValue_ne_nil (v : Value) : renderValue v ≠ [] := by
  cases v <;> simp [renderValue, renderString]

/-- The rendered elements of an array are at least as many characters as
there are elements. -/
theorem length_le_renderValues (vs : List Value) : vs.length ≤ (renderValues vs).length := by
  induction vs with
  | nil => simp [renderValues]
  | cons v vs ih =>
    have hv : 0 < (renderValue v).length :=
      List.length_pos.mpr (renderValue_ne_nil v)
    cases vs with
    | nil => simpa [renderValues] using hv
    | cons v' vs' =>
      rw [renderValues_cons_cons]
      simp only [List.length_cons, List.length_append] at *
      omega

theorem parseManifest_empty (r : List Char) :
    parseManifest ('[' :: ']' :: r) = some ([], r) := rfl

theorem parseManifest_nested (t : List Char) :
    parseManifest ('[' :: '[' :: t) = parseEntries (('[' :: t).length) ('[' :: t) := rfl

/-! ### Claims C1-C5 -/

/-- C1: for every finite input sequence of (key, mimetype) pairs whose keys
are all representable as text, `file_list_to_json` applied to the sequence
returned by `store_all` yields `Ok` of a manifest with the same length as
the input whose i-th entry is the two-element array `[mimetype_i, key_i]`:
input order is preserved exactly, with no sorting and no deduplication. -/
theorem assemble_preserves_length_and_order (fl : List (PathBuf × String))
    (h : ∀ x ∈ fl, x.1.isValid = true) :
    ∃ vs : List Value,
      file_list_to_json fl = .returned (.ok (.arr vs)) ∧
      vs.length = fl.length ∧
      ∀ i (hi : i < fl.length) (hv : i < vs.length),
        vs[i] = Value.arr [Value.str (fl[i].2), Value.str (fl[i].1.textOf)] := by
  refine ⟨fl.map entryVal, file_list_to_json_valid fl h, by simp, ?_⟩
  intro i hi hv
  simp [entryVal]

/-- C1 witness: a concrete two-entry input, checked end to end. -/
theorem assemble_preserves_length_and_order_witness :
    ∃ vs : List Value,
      file_list_to_json
        [(OsString.valid "index.html", "text/html"),
         (OsString.valid "search-index.js", "application/javascript")] =
        .returned (.ok (.arr vs)) ∧
      vs.length = 2 ∧
      vs = [Value.arr [Value.str "text/html", Value.str "index.html"],
            Value.arr [Value.str "application/javascript", Value.str "search-index.js"]] := by
  obtain ⟨vs, h1, h2, h3⟩ := assemble_preserves_length_and_order
    [(OsString.valid "index.html", "text/html"),
     (OsString.valid "search-index.js", "application/javascript")]
    (by intro x hx; fin_cases hx <;> rfl)
  have heval : file_list_to_json
      [(OsString.valid "index.html", "text/html"),
       (OsString.valid "search-index.js", "application/javascript")] =
      .returned (.ok (.arr
        [Value.arr [Value.str "text/html", Value.str "index.html"],
         Value.arr [Value.str "application/javascript", Value.str "search-index.js"]])) := rfl
  rw [h1] at heval
  simp only [Outcome.returned.injEq, Except.ok.injEq, Value.arr.injEq] at heval
  refine ⟨vs, h1, h2, heval⟩

/-- C2: if some key in the input is not representable as text, manifest
assembly fails for the whole batch (the `unwrap` panics) and returns no
manifest at all — in particular no partial manifest with the entries that
precede the offending key is observable by the caller. -/
theorem assemble_fails_whole_batch (fl : List (PathBuf × String))
    (h : ∃ x ∈ fl, x.1.isValid = false) :
    file_list_to_json fl = .panicked ∧
    ∀ r : Except Error Value, file_list_to_json fl ≠ .returned r := by
  have hp : file_list_to_json fl = .panicked := by
    simp [file_list_to_json, mapPanic_invalid fl h]
  exact ⟨hp, fun r hr => by rw [hp] at hr; exact Outcome.noConfusion hr⟩

/-- C2 witness: a valid entry followed by a non-text key; the valid entry
does not leak through. -/
theorem assemble_fails_whole_batch_witness :
    file_list_to_json
      [(OsString.valid "index.html", "text/html"), (OsString.invalid [255], "text/css")] =
      .panicked :=
  (assemble_fails_whole_batch
    [(OsString.valid "index.html", "text/html"), (OsString.invalid [255], "text/css")]
    ⟨(OsString.invalid [255], "text/css"), by simp, rfl⟩).1

/-- C3: if `store_all` fails with an error, `add_path_into_database`
returns exactly that error to the caller — no manifest, no algorithm set,
the error neither swallowed nor transformed into a partial success. -/
theorem add_path_surfaces_store_error (storage : Storage) (pre : String) (path : PathBuf)
    (e : Error) (h : storage.store_all pre path = .error e) :
    add_path_into_database storage pre path = .returned (.error e) := by
  simp [add_path_into_database, h]

/-- C3 witness: a backend whose `store_all` always fails with a fixed
error; the same error comes back from `add_path_into_database`. -/
theorem add_path_surfaces_store_error_witness :
    add_path_into_database ⟨fun _ _ => .error "io error"⟩ "crate-1.0.0" (OsString.valid "dir") =
      .returned (.error "io error") :=
  add_path_surfaces_store_error ⟨fun _ _ => .error "io error"⟩ "crate-1.0.0"
    (OsString.valid "dir") "io error" rfl

/-- C4: on all-valid input, every entry of the returned manifest is a
2-element JSON array whose elements are both JSON strings, so the whole
manifest is an array of 2-element arrays of strings. -/
theorem assemble_entries_are_string_pairs (fl : List (PathBuf × String))
    (h : ∀ x ∈ fl, x.1.isValid = true) :
    ∃ vs : List Value,
      file_list_to_json fl = .returned (.ok (.arr vs)) ∧
      ∀ v ∈ vs, ∃ a b : String, v = .arr [.str a, .str b] := by
  refine ⟨fl.map entryVal, file_list_to_json_valid fl h, ?_⟩
  intro v hv
  obtain ⟨e, _, rfl⟩ := List.mem_map.mp hv
  exact ⟨e.2, e.1.textOf, rfl⟩

/-- C4 witness: a concrete one-entry input whose manifest entry is a pair
of strings. -/
theorem assemble_entries_are_string_pairs_witness :
    ∃ vs : List Value,
      file_list_to_json [(OsString.valid "index.html", "text/html")] =
        .returned (.ok (.arr vs)) ∧
      ∀ v ∈ vs, ∃ a b : String, v = .arr [.str a, .str b] :=
  assemble_entries_are_string_pairs [(OsString.valid "index.html", "text/html")]
    (by intro x hx; fin_cases hx <;> rfl)

/-- C5 counterexample: `store_all` succeeds (returning the algorithm set
`["Zstd"]`), yet `add_path_into_database` panics at the path-to-text
`unwrap` and returns nothing at all — in particular not the algorithm
set — so the claim fails for this successful `store_all` outcome. -/
theorem add_path_algorithms_counterexample :
    cexStorage.store_all "crate-1.0.0" (OsString.valid "dir") =
      .ok ([(OsString.invalid [255], "text/html")], ["Zstd"]) ∧
    add_path_into_database cexStorage "crate-1.0.0" (OsString.valid "dir") =
      .panicked :=
  ⟨rfl, rfl⟩

/-- C5 (amended): for every prefix, directory path, and successful
`store_all` outcome all of whose keys are representable as text,
`add_path_into_database` returns the `CompressionAlgorithms` value produced
by `store_all` unchanged, paired with the assembled manifest. -/
theorem add_path_passes_algorithms_through (storage : Storage) (pre : String)
    (path : PathBuf) (fl : List (PathBuf × String)) (algos : CompressionAlgorithms)
    (h1 : storage.store_all pre path = .ok (fl, algos))
    (h2 : ∀ x ∈ fl, x.1.isValid = true) :
    ∃ v : Value,
      add_path_into_database storage pre path = .returned (.ok (v, algos)) := by
  refine ⟨.arr (fl.map entryVal), ?_⟩
  simp [add_path_into_database, h1, file_list_to_json_valid fl h2]

/-- C5 witness: a backend returning one valid entry and the set `["Zstd"]`;
the same set comes back unchanged. -/
theorem add_path_passes_algorithms_through_witness :
    ∃ v : Value,
      add_path_into_database ⟨fun _ _ => .ok ([(OsString.valid "index.html", "text/html")], ["Zstd"])⟩
        "crate-1.0.0" (OsString.valid "dir") = .returned (.ok (v, ["Zstd"])) :=
  add_path_passes_algorithms_through
    ⟨fun _ _ => .ok ([(OsString.valid "index.html", "text/html")], ["Zstd"])⟩
    "crate-1.0.0" (OsString.valid "dir") [(OsString.valid "index.html", "text/html")] ["Zstd"]
    rfl (by intro x hx; fin_cases hx <;> rfl)

/-- C7: manifest assembly is a pure, deterministic function of the
collected list: in the world-passing embedding, the result is the same for
any two runs on equal inputs whatever the external state, and the external
state is returned unchanged. -/
theorem assemble_pure_deterministic (σ : Type) (w w' : σ)
    (fl₁ fl₂ : List (PathBuf × String)) (h : fl₁ = fl₂) :
    (file_list_to_json_run σ w fl₁).1 = (file_list_to_json_run σ w' fl₂).1 ∧
    (file_list_to_json_run σ w fl₁).2 = w := by
  subst h; exact ⟨rfl, rfl⟩

/-- C7 witness: two runs with different external states agree on a concrete
input and leave the state alone. -/
theorem assemble_pure_deterministic_witness :
    (file_list_to_json_run Nat 0 [(OsString.valid "index.html", "text/html")]).1 =
      (file_list_to_json_run Nat 1 [(OsString.valid "index.html", "text/html")]).1 ∧
    (file_list_to_json_run Nat 0 [(OsString.valid "index.html", "text/html")]).2 = 0 :=
  assemble_pure_deterministic Nat 0 1 _ _ rfl

/-- C8: `file_list_to_json` never uses the `Err` channel of its declared
`Result` return type: on all-valid input it returns `Ok` of the manifest,
and on input with a non-text path it aborts via the panic of the
`OsString`-to-`String` `unwrap`, so for every input the `Err` variant is
unreachable. -/
theorem file_list_to_json_never_err (fl : List (PathBuf × String)) :
    (∀ e : Error, file_list_to_json fl ≠ .returned (.error e)) ∧
    ((∀ x ∈ fl, x.1.isValid = true) →
      file_list_to_json fl = .returned (.ok (.arr (fl.map entryVal)))) ∧
    ((∃ x ∈ fl, x.1.isValid = false) → file_list_to_json fl = .panicked) := by
  refine ⟨?_, fun h => file_list_to_json_valid fl h,
    fun h => by simp [file_list_to_json, mapPanic_invalid fl h]⟩
  intro e hcontra
  unfold file_list_to_json at hcontra
  cases hm : mapPanic entry_to_json fl <;> rw [hm] at hcontra <;> simp at hcontra

/-- C8 witness: the `Err` channel is unused on a valid input, and a
non-text path makes the function panic rather than return `Err`. -/
theorem file_list_to_json_never_err_witness :
    file_list_to_json [(OsString.valid "index.html", "text/html")] ≠
      .returned (.error "e") ∧
    file_list_to_json [(OsString.invalid [255], "text/html")] = .panicked := by
  refine ⟨(file_list_to_json_never_err [(OsString.valid "index.html", "text/html")]).1 "e", ?_⟩
  exact (file_list_to_json_never_err [(OsString.invalid [255], "text/html")]).2.2
    ⟨(OsString.invalid [255], "text/html"), by simp, rfl⟩

/-- C9: manifest assembly performs no validation or normalization of
mimetype strings: for all-valid paths each mimetype string appears in the
corresponding manifest entry unchanged, whatever its content — in
particular an empty mimetype is accepted and emitted, not rejected. -/
theorem assemble_no_mimetype_validation (fl : List (PathBuf × String))
    (h : ∀ x ∈ fl, x.1.isValid = true) :
    ∃ vs : List Value,
      file_list_to_json fl = .returned (.ok (.arr vs)) ∧
      vs.length = fl.length ∧
      ∀ i (hi : i < fl.length) (hv : i < vs.length),
        ∃ k : String, vs[i] = Value.arr [Value.str (fl[i].2), Value.str k] := by
  refine ⟨fl.map entryVal, file_list_to_json_valid fl h, by simp, ?_⟩
  intro i hi hv
  exact ⟨(fl[i]).1.textOf, by simp [entryVal]⟩

/-- C9 witness: an empty mimetype on a valid path is accepted — the
function returns `Ok` and the empty string is emitted unchanged. -/
theorem assemble_no_mimetype_validation_witness :
    ∃ vs : List Value,
      file_list_to_json [(OsString.valid "index.html", "")] =
        .returned (.ok (.arr vs)) ∧
      vs.length = 1 ∧
      ∀ i (hi : i < 1) (hv : i < vs.length),
        ∃ k : String, vs[i] =
          Value.arr [Value.str ([(OsString.valid "index.html", "")][i].2), Value.str k] :=
  assemble_no_mimetype_validation [(OsString.valid "index.html", "")]
    (by intro x hx; fin_cases hx <;> rfl)

/-- C10: `file_list_to_json` terminates on every finite input list — it
either returns `Ok` of a manifest or panics, and (being a total Lean
function) always yields one of the two — and `add_path_into_database`
likewise yields an outcome for every backend result, so it terminates
whenever `store_all` does. -/
theorem assemble_total (fl : List (PathBuf × String)) (storage : Storage)
    (pre : String) (path : PathBuf) :
    ((∃ v : Value, file_list_to_json fl = .returned (.ok v)) ∨
      file_list_to_json fl = .panicked) ∧
    ((∃ r : Except Error (Value × CompressionAlgorithms),
        add_path_into_database storage pre path = .returned r) ∨
      add_path_into_database storage pre path = .panicked) := by
  constructor
  · by_cases h : ∀ x ∈ fl, x.1.isValid = true
    · exact Or.inl ⟨.arr (fl.map entryVal), file_list_to_json_valid fl h⟩
    · push_neg at h
      obtain ⟨x, hx, hv⟩ := h
      right
      simp [file_list_to_json,
        mapPanic_invalid fl ⟨x, hx, Bool.not_eq_true _ ▸ hv⟩]
  · cases hs : storage.store_all pre path with
    | error e => exact Or.inl ⟨.error e, by simp [add_path_into_database, hs]⟩
    | ok p =>
      obtain ⟨fl', algos⟩ := p
      by_cases h : ∀ x ∈ fl', x.1.isValid = true
      · exact Or.inl ⟨.ok (.arr (fl'.map entryVal), algos),
          by simp [add_path_into_database, hs, file_list_to_json_valid fl' h]⟩
      · push_neg at h
        obtain ⟨x, hx, hv⟩ := h
        right
        simp [add_path_into_database, hs, file_list_to_json,
          mapPanic_invalid fl' ⟨x, hx, Bool.not_eq_true _ ▸ hv⟩]

/-- C6: serializing the Manifest returned by manifest assembly to its
textual JSON form and deserializing it back (as its consumers do, as an
array of 2-element string arrays) yields exactly the original
(mimetype, key) sequence, with nothing left over. -/
theorem manifest_serialization_roundtrip (fl : List (PathBuf × String))
    (h : ∀ x ∈ fl, x.1.isValid = true) :
    ∃ m : Value,
      file_list_to_json fl = .returned (.ok m) ∧
      parseManifest (renderValue m) =
        some (fl.map (fun e => (e.2, e.1.textOf)), []) := by
  refine ⟨.arr (fl.map entryVal), file_list_to_json_valid fl h, ?_⟩
  cases fl with
  | nil =>
    have hr : renderValue (.arr (List.map entryVal [])) = '[' :: ']' :: [] := by
      simp [renderValue, renderValues]
    rw [hr, parseManifest_empty]
    simp
  | cons e fl' =>
    obtain ⟨t, ht⟩ : ∃ t, renderValues ((e :: fl').map entryVal) = '[' :: t := by
      cases fl' with
      | nil =>
        refine ⟨renderValues [Value.str e.2, Value.str e.1.textOf] ++ [']'], ?_⟩
        rw [List.map_cons, List.map_nil, renderValues_one]
        simp [entryVal, renderValue]
      | cons e2 fl2 =>
        refine ⟨(renderValues [Value.str e.2, Value.str e.1.textOf] ++ [']']) ++
          ',' :: renderValues ((e2 :: fl2).map entryVal), ?_⟩
        rw [List.map_cons, List.map_cons, renderValues_cons_cons]
        simp [entryVal, renderValue, List.cons_append, List.append_assoc]
    have hrv : renderValue (.arr ((e :: fl').map entryVal)) =
        '[' :: (renderValues ((e :: fl').map entryVal) ++ [']']) := by
      simp [renderValue]
    rw [hrv, ht]
    simp only [List.cons_append]
    rw [parseManifest_nested]
    have hback : '[' :: (t ++ [']']) = renderValues ((e :: fl').map entryVal) ++ ']' :: [] := by
      rw [ht]
      simp
    rw [hback]
    have hlen : fl'.length <
        (renderValues ((e :: fl').map entryVal) ++ ']' :: ([] : List Char)).length := by
      have h1 := length_le_renderValues ((e :: fl').map entryVal)
      simp only [List.length_map, List.length_cons, List.length_append] at h1 ⊢
      omega
    exact parseEntries_render fl' e [] _ hlen

/-- C6 witness: a concrete two-entry manifest survives the serialize /
deserialize round trip. -/
theorem manifest_serialization_roundtrip_witness :
    ∃ m : Value,
      file_list_to_json
        [(OsString.valid "index.html", "text/html"),
         (OsString.valid "search-index.js", "application/javascript")] =
        .returned (.ok m) ∧
      parseManifest (renderValue m) =
        some ([("text/html", "index.html"),
               ("application/javascript", "search-index.js")], []) :=
  manifest_serialization_roundtrip
    [(OsString.valid "index.html", "text/html"),
     (OsString.valid "search-index.js", "application/javascript")]
    (by intro x hx; fin_cases hx <;> rfl)

end DocsRs
